import Mathlib

/-!
Verification development for the dcompose repository (src/src/lib.rs and
src/src/main.rs): a shallow embedding of the specification-string parser
(GITHUB_SPEC_RE plus ComposeServiceGithubSpec::from_str), the compose-file
data model (DockerComposeFile, get_service), and the merge pipeline of main.

Strings are modelled as lists of characters.  YAML values (serde_yaml::Value)
are modelled by the inductive Yaml; serde_yaml::Mapping and the
HashMap<Value, Value> maps of main are both modelled by YamlMap, a key-unique
association list: inserting overwrites the previous binding of a key.
Iteration order of hash maps is unspecified in the source, so claims are
stated through key lookup, never through entry order.
-/

abbrev Str : Type := List Char

/-- Longest prefix of characters not in the class `bad`, together with the
rest of the input.  Models the greedy matching of a negated character class
such as the regex fragment `[^@]+` (character classes in the source regex all
match newline). -/
def spanNot (bad : List Char) : Str → Str × Str
  | [] => ([], [])
  | c :: cs =>
    if c ∈ bad then ([], c :: cs)
    else
      let r := spanNot bad cs
      (c :: r.1, r.2)

/-- Rust `str::split` on a single separator character: always yields at least
one (possibly empty) piece; `n` separators yield `n + 1` pieces. -/
def splitOnChar (sep : Char) : Str → List Str
  | [] => [[]]
  | c :: cs =>
    if c = sep then [] :: splitOnChar sep cs
    else
      match splitOnChar sep cs with
      | [] => [[c]]
      | g :: gs => (c :: g) :: gs

/-- The named capture groups of GITHUB_SPEC_RE as the Rust `captures.name`
API exposes them: each group is an `Option` (absent when the group did not
participate in the match).  `branch` includes its leading plus sign, as the
regex group `(?<branch>\+[^:]+)?` captures it. -/
structure RegexCaptures where
  project : Option Str
  repository : Option Str
  branch : Option Str
  path : Option Str
  services : Option Str
  deriving DecidableEq, Repr

/-- Continuation of `githubSpecCaptures` after the literal colon: matches
`(?<path>[^@]+)@(?<services>.+)$`.  The dot in the services group does not
match a newline (Rust regex default), hence the newline test. -/
def capturesAfterColon (project repository : Str) (branch : Option Str)
    (rest : Str) : Option RegexCaptures :=
  match spanNot ['@'] rest with
  | (path, '@' :: sv) =>
    if path = [] then none
    else if sv = [] then none
    else if '\n' ∈ sv then none
    else some ⟨some project, some repository, branch, some path, some sv⟩
  | _ => none

/-- Embeds matching of the anchored regex GITHUB_SPEC_RE (src/src/lib.rs:9-11)
`^(?<project>[^\/]+)\/(?<repository>[^[\+:]]+)(?<branch>\+[^:]+)?:(?<path>[^@]+)@(?<services>.+)$`
against a whole input string.  Each `X+` group greedily takes the maximal run
of its class; because every group excludes its following delimiter character,
backtracking can never produce a second decomposition, so the functional
translation is exact.  The nested class `[^[\+:]]` excludes exactly the plus
sign and the colon. -/
def githubSpecCaptures (s : Str) : Option RegexCaptures :=
  match spanNot ['/'] s with
  | (project, '/' :: rest1) =>
    if project = [] then none
    else
      match spanNot ['+', ':'] rest1 with
      | (repository, '+' :: rest2) =>
        if repository = [] then none
        else
          match spanNot [':'] rest2 with
          | (branchBody, ':' :: rest3) =>
            if branchBody = [] then none
            else capturesAfterColon project repository (some ('+' :: branchBody)) rest3
          | _ => none
      | (repository, ':' :: rest2) =>
        if repository = [] then none
        else capturesAfterColon project repository none rest2
      | _ => none
  | _ => none

/-- Locator for a file on Github (src/src/lib.rs, struct GithubFileSpec),
instantiated at owned strings as the parser produces it. -/
structure GithubFileSpec where
  project : Str
  repository : Str
  branch : Str
  filepath : Str
  deriving DecidableEq, Repr

/-- A locator plus the list of requested service names
(src/src/lib.rs, struct ComposeServiceGithubSpec). -/
structure ComposeServiceGithubSpec where
  spec : GithubFileSpec
  services : List Str
  deriving DecidableEq, Repr

/-- The error enum of the library (src/src/lib.rs, YammerError), restricted to
the one variant the parser can produce: UnknownSpec with its message. -/
inductive YammerError where
  | unknownSpec (msg : Str)
  deriving DecidableEq, Repr

/-- The apostrophe character, by code point. -/
def apostropheChar : Char := Char.ofNat 39

/-- The message of the no-match error of from_str (src/src/lib.rs:145), which
contains an apostrophe: the text is Doesn + apostrophe + t match expected
regex. -/
def noMatchMsg : Str := "Doesn".data ++ apostropheChar :: "t match expected regex.".data

/-- Embeds `impl FromStr for ComposeServiceGithubSpec<String>`
(src/src/lib.rs:143-167): run the regex; report UnknownSpec messages through
the let-else chain exactly as the source does; the branch is the last piece of
splitting the captured branch text on the plus sign (`split("+").last()`),
defaulting to "master" when the group is absent; services is the captured text
split on commas. -/
def ComposeServiceGithubSpec.fromStr (s : Str) :
    Except YammerError ComposeServiceGithubSpec :=
  match githubSpecCaptures s with
  | none => .error (.unknownSpec noMatchMsg)
  | some captures =>
    match captures.project with
    | none => .error (.unknownSpec "project/user is not specified".data)
    | some project =>
      match captures.repository with
      | none => .error (.unknownSpec "repository is not specified".data)
      | some repository =>
        match captures.path with
        | none => .error (.unknownSpec "path is not specified".data)
        | some path =>
          match captures.services with
          | none => .error (.unknownSpec "no services are specified".data)
          | some servicesCsv =>
            let branch : Str :=
              match captures.branch with
              | some m => (splitOnChar '+' m).getLastD []
              | none => "master".data
            .ok ⟨⟨project, repository, branch, path⟩, splitOnChar ',' servicesCsv⟩

mutual
/-- serde_yaml::Value, restricted to the shapes the claims need
(null, string, sequence, mapping). -/
inductive Yaml where
  | null
  | s (v : Str)
  | seq (vs : YamlList)
  | map (m : YamlMap)
  deriving DecidableEq, Repr

inductive YamlList where
  | nil
  | cons (hd : Yaml) (tl : YamlList)
  deriving DecidableEq, Repr

/-- serde_yaml::Mapping and HashMap<Value, Value>, modelled as a key-unique
association list (claims only inspect it through `lookup`). -/
inductive YamlMap where
  | nil
  | cons (k v : Yaml) (tl : YamlMap)
  deriving DecidableEq, Repr
end

/-- Key lookup in a mapping (serde_yaml `Mapping::get` / `HashMap::get`). -/
def YamlMap.lookup : YamlMap → Yaml → Option Yaml
  | .nil, _ => none
  | .cons k v rest, key => if k = key then some v else rest.lookup key

/-- Remove all bindings of a key. -/
def YamlMap.erase : YamlMap → Yaml → YamlMap
  | .nil, _ => .nil
  | .cons k v rest, key =>
    if k = key then rest.erase key else .cons k v (rest.erase key)

/-- `HashMap::insert` / `Mapping::insert`: bind `key` to `v`, overwriting any
previous binding. -/
def YamlMap.insert (m : YamlMap) (key v : Yaml) : YamlMap :=
  .cons key v (m.erase key)

/-- `HashMap::extend`: insert every entry of `b` into `a`, entries of `b`
overwriting same-key entries of `a`. -/
def YamlMap.extend : YamlMap → YamlMap → YamlMap
  | a, .nil => a
  | a, .cons k v rest => YamlMap.extend (a.insert k v) rest

/-- Left fold over the entries of a mapping in order. -/
def YamlMap.foldlEntries {α : Type} (f : α → Yaml → Yaml → α) (init : α) :
    YamlMap → α
  | .nil => init
  | .cons k v rest => rest.foldlEntries f (f init k v)

/-- Re-collecting a mapping through a HashMap
(`svs.into_iter().collect::<HashMap<..>>()` then back into a Mapping in
src/src/main.rs:79-84): insert every entry into an empty map. -/
def YamlMap.rehash (m : YamlMap) : YamlMap :=
  m.foldlEntries (fun acc k v => acc.insert k v) .nil

/-- `Value::as_mapping` (serde_yaml): the mapping when the value is one. -/
def Yaml.asMapping : Yaml → Option YamlMap
  | .map m => some m
  | _ => none

/-- struct DockerComposeFile (src/src/lib.rs:113-117): an optional version
string and an optional services mapping.  serde ignores any other top-level
key of the decoded document. -/
structure DockerComposeFile where
  version : Option Str
  services : Option YamlMap
  deriving DecidableEq, Repr

/-- `DockerComposeFile::get_service` (src/src/lib.rs:132-137):
`self.services.as_ref()?` then `services.get(name).and_then(|v| v.as_mapping())`.
A `&str` key coerces to a string Value for the lookup. -/
def DockerComposeFile.getService (f : DockerComposeFile) (name : Str) :
    Option YamlMap :=
  match f.services with
  | none => none
  | some services => (services.lookup (.s name)).bind Yaml.asMapping

/-- The input of one iteration of the accumulation loop of main
(src/src/main.rs:44-65): the download outcome for one specification
(`none` models a failed download, which main logs and skips) together with
the service names that specification requested. -/
structure SpecOutcome where
  download : Option DockerComposeFile
  services : List Str
  deriving DecidableEq, Repr

/-- The body of the accumulation loop of main (src/src/main.rs:44-65): on a
failed download the accumulator is unchanged; on success the version is taken
when none is set yet and the document defines one
(`if version.is_none() && compose_file_version.is_some()`), and every
requested service found in the document is inserted into the merged map,
overwriting a same-name entry. -/
def mergeStep (acc : Option Str × YamlMap) (o : SpecOutcome) :
    Option Str × YamlMap :=
  match o.download with
  | none => acc
  | some composeFile =>
    let version :=
      if acc.1.isNone && composeFile.version.isSome then composeFile.version
      else acc.1
    let merged := o.services.foldl
      (fun m service =>
        match composeFile.getService service with
        | some contents => m.insert (.s service) (.map contents)
        | none => m)
      acc.2
    (version, merged)

/-- The whole accumulation loop: fold `mergeStep` over the specifications in
order, starting from no version and an empty merged map. -/
def mergedAccum (specs : List SpecOutcome) : Option Str × YamlMap :=
  specs.foldl mergeStep (none, .nil)

/-- serde decoding of a YAML mapping into DockerComposeFile
(`serde_yaml::from_str::<DockerComposeFile>` in src/src/main.rs:78): the
`version` key must be absent, null or a string; the `services` key must be
absent, null or a mapping; every other top-level key is ignored.  `none`
models a decode error (which main turns into a panic via `unwrap`). -/
def decodeComposeFile (raw : YamlMap) : Option DockerComposeFile :=
  match raw.lookup (.s "version".data), raw.lookup (.s "services".data) with
  | some (.seq _), _ => none
  | some (.map _), _ => none
  | _, some (.seq _) => none
  | _, some (.s _) => none
  | vOpt, sOpt =>
    let version : Option Str :=
      match vOpt with
      | some (.s v) => some v
      | _ => none
    let services : Option YamlMap :=
      match sOpt with
      | some (.map m) => some m
      | _ => none
    some ⟨version, services⟩

/-- The finalization of main (src/src/main.rs:67-91), as a function of the
loop outcomes and of the decoded top-level mapping of a pre-existing file at
the output path (`none` when no file exists).  Returns the top-level mapping
that is serialized and written; `none` models a panic: `version.unwrap()`
when the loop found no version (src/src/main.rs:70) — which happens before
the output file is ever read — or the `unwrap` on decoding a malformed
pre-existing file.  When a pre-existing file exists, only its `services`
mapping is carried into the base map, and `extend` with the remote results
then replaces the `services` key wholesale. -/
def mainMerge (specs : List SpecOutcome) (existing : Option YamlMap) :
    Option YamlMap :=
  let acc := mergedAccum specs
  match acc.1 with
  | none => none
  | some v =>
    let mergedOuter :=
      (YamlMap.nil.insert (.s "services".data) (.map acc.2)).insert
        (.s "version".data) (.s v)
    match existing with
    | none => some (YamlMap.nil.extend mergedOuter)
    | some raw =>
      match decodeComposeFile raw with
      | none => none
      | some ex =>
        let existingServices := (ex.services.getD .nil).rehash
        let allContents :=
          YamlMap.nil.insert (.s "services".data) (.map existingServices)
        some (allContents.extend mergedOuter)

/-- Modelled from the spec: the selected version is the first defined
`schema_version` among the successfully processed remote documents, in
specification order; later documents never override it.  (This follows the
amended reading in which an empty string counts as a defined version.) -/
def specSelectedVersion : List SpecOutcome → Option Str
  | [] => none
  | o :: rest =>
    match o.download with
    | none => specSelectedVersion rest
    | some f =>
      match f.version with
      | some v => some v
      | none => specSelectedVersion rest

lemma spanNot_append (bad : List Char) (xs : Str) (c : Char) (ys : Str)
    (hxs : ∀ a ∈ xs, a ∉ bad) (hc : c ∈ bad) :
    spanNot bad (xs ++ c :: ys) = (xs, c :: ys) := by
  induction xs with
  | nil => simp [spanNot, hc]
  | cons a xs ih =>
    have ha : a ∉ bad := hxs a (by simp)
    simp [spanNot, ha, ih (fun b hb => hxs b (by simp [hb]))]

lemma splitOnChar_ne_nil (sep : Char) (s : Str) : splitOnChar sep s ≠ [] := by
  induction s with
  | nil => simp [splitOnChar]
  | cons c cs ih =>
    simp only [splitOnChar]
    split
    · simp
    · split
      · simp
      · simp

lemma YamlMap.lookup_erase : ∀ (m : YamlMap) (k key : Yaml),
    (m.erase k).lookup key = if key = k then none else m.lookup key
  | .nil, k, key => by simp [YamlMap.erase, YamlMap.lookup]
  | .cons k0 v rest, k, key => by
    have ih := YamlMap.lookup_erase rest k key
    by_cases h0 : k0 = k
    · subst h0
      by_cases hk : key = k0
      · subst hk
        simpa [YamlMap.erase, YamlMap.lookup] using ih
      · have h1 : ¬ k0 = key := fun hc => hk hc.symm
        simp [YamlMap.erase, YamlMap.lookup, hk, ih, h1]
    · by_cases h1 : k0 = key
      · subst h1
        simp [YamlMap.erase, YamlMap.lookup, h0]
      · simp [YamlMap.erase, YamlMap.lookup, h0, h1, ih]

lemma YamlMap.lookup_insert (m : YamlMap) (k v key : Yaml) :
    (m.insert k v).lookup key = if key = k then some v else m.lookup key := by
  by_cases h : key = k
  · simp [YamlMap.insert, YamlMap.lookup, h]
  · have hk : ¬ k = key := fun hc => h hc.symm
    simp [YamlMap.insert, YamlMap.lookup, hk, YamlMap.lookup_erase, h]

lemma foldl_mergeStep_fst (specs : List SpecOutcome) :
    ∀ (v : Option Str) (m : YamlMap),
    (specs.foldl mergeStep (v, m)).1 =
      match v with
      | some x => some x
      | none => specSelectedVersion specs := by
  induction specs with
  | nil =>
    intro v m
    cases v <;> simp [specSelectedVersion]
  | cons o rest ih =>
    intro v m
    rw [List.foldl_cons]
    rcases hd : o.download with _ | f
    · cases v <;> simp [mergeStep, hd, ih, specSelectedVersion]
    · rcases v with _ | x
      · rcases hv : f.version with _ | fv <;>
          simp [mergeStep, hd, hv, ih, specSelectedVersion]
      · simp [mergeStep, hd, ih, specSelectedVersion]

lemma mergedAccum_fst (specs : List SpecOutcome) :
    (mergedAccum specs).1 = specSelectedVersion specs := by
  simpa using foldl_mergeStep_fst specs none .nil

lemma specSelectedVersion_eq_none_iff (specs : List SpecOutcome) :
    specSelectedVersion specs = none ↔
      ∀ o ∈ specs, ∀ f, o.download = some f → f.version = none := by
  induction specs with
  | nil => simp [specSelectedVersion]
  | cons o rest ih =>
    rcases hd : o.download with _ | f
    · simp [specSelectedVersion, hd, ih, List.forall_mem_cons]
    · rcases hv : f.version with _ | fv
      · simp [specSelectedVersion, hd, hv, ih, List.forall_mem_cons]
      · simp [specSelectedVersion, hd, hv, List.forall_mem_cons]

lemma capturesAfterColon_some_inv (project repository : Str) (branch : Option Str)
    (rest : Str) (c : RegexCaptures)
    (h : capturesAfterColon project repository branch rest = some c) :
    ∃ pa sv, c = ⟨some project, some repository, branch, some pa, some sv⟩ ∧
      pa ≠ [] ∧ sv ≠ [] := by
  unfold capturesAfterColon at h
  split at h
  · split at h
    · cases h
    · split at h
      · cases h
      · split at h
        · cases h
        · rename_i path sv heq hpath hsv hnl
          exact ⟨path, sv, (Option.some.inj h).symm, hpath, hsv⟩
  · cases h

lemma githubSpecCaptures_some_inv (s : Str) (c : RegexCaptures)
    (h : githubSpecCaptures s = some c) :
    ∃ p r pa sv, c.project = some p ∧ c.repository = some r ∧
      c.path = some pa ∧ c.services = some sv ∧
      p ≠ [] ∧ r ≠ [] ∧ pa ≠ [] ∧ sv ≠ [] ∧
      (c.branch = none ∨ ∃ b, c.branch = some ('+' :: b) ∧ b ≠ []) := by
  unfold githubSpecCaptures at h
  split at h
  · rename_i project rest1 heq1
    split at h
    · cases h
    · rename_i hproj
      split at h
      · rename_i repository rest2 heq2
        split at h
        · cases h
        · rename_i hrepo
          split at h
          · rename_i branchBody rest3 heq3
            split at h
            · cases h
            · rename_i hbr
              obtain ⟨pa, sv, hc, hpa, hsv⟩ :=
                capturesAfterColon_some_inv _ _ _ _ _ h
              subst hc
              exact ⟨project, repository, pa, sv, rfl, rfl, rfl, rfl,
                hproj, hrepo, hpa, hsv, Or.inr ⟨branchBody, rfl, hbr⟩⟩
          · cases h
      · rename_i repository rest2 heq2
        split at h
        · cases h
        · rename_i hrepo
          obtain ⟨pa, sv, hc, hpa, hsv⟩ :=
            capturesAfterColon_some_inv _ _ _ _ _ h
          subst hc
          exact ⟨project, repository, pa, sv, rfl, rfl, rfl, rfl,
            hproj, hrepo, hpa, hsv, Or.inl rfl⟩
      · cases h
  · cases h

lemma githubSpecCaptures_decomp_nobranch (p r pa sv : Str)
    (hp : p ≠ []) (hpc : '/' ∉ p)
    (hr : r ≠ []) (hrp : '+' ∉ r) (hrc : ':' ∉ r)
    (hpa : pa ≠ []) (hpac : '@' ∉ pa)
    (hsv : sv ≠ []) (hsvn : '\n' ∉ sv) :
    githubSpecCaptures (p ++ '/' :: (r ++ ':' :: (pa ++ '@' :: sv))) =
      some ⟨some p, some r, none, some pa, some sv⟩ := by
  have h1 : spanNot ['/'] (p ++ '/' :: (r ++ ':' :: (pa ++ '@' :: sv))) =
      (p, '/' :: (r ++ ':' :: (pa ++ '@' :: sv))) := by
    refine spanNot_append _ _ _ _ ?_ (by simp)
    intro a ha hmem
    simp only [List.mem_singleton] at hmem
    exact hpc (hmem ▸ ha)
  have h2 : spanNot ['+', ':'] (r ++ ':' :: (pa ++ '@' :: sv)) =
      (r, ':' :: (pa ++ '@' :: sv)) := by
    refine spanNot_append _ _ _ _ ?_ (by simp)
    intro a ha hmem
    rcases List.mem_pair.mp hmem with hEq | hEq
    · exact hrp (hEq ▸ ha)
    · exact hrc (hEq ▸ ha)
  have h3 : spanNot ['@'] (pa ++ '@' :: sv) = (pa, '@' :: sv) := by
    refine spanNot_append _ _ _ _ ?_ (by simp)
    intro a ha hmem
    simp only [List.mem_singleton] at hmem
    exact hpac (hmem ▸ ha)
  simp [githubSpecCaptures, capturesAfterColon, h1, h2, h3, hp, hr, hpa, hsv, hsvn]

lemma githubSpecCaptures_decomp_branch (p r b pa sv : Str)
    (hp : p ≠ []) (hpc : '/' ∉ p)
    (hr : r ≠ []) (hrp : '+' ∉ r) (hrc : ':' ∉ r)
    (hb : b ≠ []) (hbc : ':' ∉ b)
    (hpa : pa ≠ []) (hpac : '@' ∉ pa)
    (hsv : sv ≠ []) (hsvn : '\n' ∉ sv) :
    githubSpecCaptures (p ++ '/' :: (r ++ '+' :: (b ++ ':' :: (pa ++ '@' :: sv)))) =
      some ⟨some p, some r, some ('+' :: b), some pa, some sv⟩ := by
  have h1 : spanNot ['/'] (p ++ '/' :: (r ++ '+' :: (b ++ ':' :: (pa ++ '@' :: sv)))) =
      (p, '/' :: (r ++ '+' :: (b ++ ':' :: (pa ++ '@' :: sv)))) := by
    refine spanNot_append _ _ _ _ ?_ (by simp)
    intro a ha hmem
    simp only [List.mem_singleton] at hmem
    exact hpc (hmem ▸ ha)
  have h2 : spanNot ['+', ':'] (r ++ '+' :: (b ++ ':' :: (pa ++ '@' :: sv))) =
      (r, '+' :: (b ++ ':' :: (pa ++ '@' :: sv))) := by
    refine spanNot_append _ _ _ _ ?_ (by simp)
    intro a ha hmem
    rcases List.mem_pair.mp hmem with hEq | hEq
    · exact hrp (hEq ▸ ha)
    · exact hrc (hEq ▸ ha)
  have h3 : spanNot [':'] (b ++ ':' :: (pa ++ '@' :: sv)) =
      (b, ':' :: (pa ++ '@' :: sv)) := by
    refine spanNot_append _ _ _ _ ?_ (by simp)
    intro a ha hmem
    simp only [List.mem_singleton] at hmem
    exact hbc (hmem ▸ ha)
  have h4 : spanNot ['@'] (pa ++ '@' :: sv) = (pa, '@' :: sv) := by
    refine spanNot_append _ _ _ _ ?_ (by simp)
    intro a ha hmem
    simp only [List.mem_singleton] at hmem
    exact hpac (hmem ▸ ha)
  simp [githubSpecCaptures, capturesAfterColon, h1, h2, h3, h4, hp, hr, hb, hpa,
    hsv, hsvn]

lemma fromStr_eq_of_captures (s : Str) (p r pa sv : Str) (br : Option Str)
    (h : githubSpecCaptures s = some ⟨some p, some r, br, some pa, some sv⟩) :
    ComposeServiceGithubSpec.fromStr s =
      .ok ⟨⟨p, r,
        (match br with
          | some m => (splitOnChar '+' m).getLastD []
          | none => "master".data), pa⟩,
        splitOnChar ',' sv⟩ := by
  cases br <;> simp [ComposeServiceGithubSpec.fromStr, h]

/-- Claim C4, counterexample: on input p/r+a+b:x@s the branch segment text
between the leading plus sign and the colon is a+b, but parse returns branch
b (the code takes the last piece of splitting on the plus sign), so the claim
as stated fails at this input. -/
theorem claim4_counterexample :
    ComposeServiceGithubSpec.fromStr "p/r+a+b:x@s".data =
      .ok ⟨⟨"p".data, "r".data, "b".data, "x".data⟩, ["s".data]⟩ ∧
    "b".data ≠ "a+b".data := by
  exact ⟨rfl, by decide⟩

/-- Claim C4 (amended): for every input assembled from the grammar
(project, repository, optional branch, path, services, each non-empty and
avoiding its delimiters, services without a newline), parse returns exactly
the project, repository, path and comma-split service-name substrings; the
branch, when its segment is present, equals the piece of the branch text
after the LAST plus sign (not the entire text between the leading plus sign
and the colon), and defaults to master when the segment is absent. -/
theorem claim4_parse_exact_substrings :
    (∀ p r b pa sv : Str,
      p ≠ [] → '/' ∉ p →
      r ≠ [] → '+' ∉ r → ':' ∉ r →
      b ≠ [] → ':' ∉ b →
      pa ≠ [] → '@' ∉ pa →
      sv ≠ [] → '\n' ∉ sv →
      ComposeServiceGithubSpec.fromStr
          (p ++ '/' :: (r ++ '+' :: (b ++ ':' :: (pa ++ '@' :: sv)))) =
        .ok ⟨⟨p, r, (splitOnChar '+' b).getLastD [], pa⟩, splitOnChar ',' sv⟩) ∧
    (∀ p r pa sv : Str,
      p ≠ [] → '/' ∉ p →
      r ≠ [] → '+' ∉ r → ':' ∉ r →
      pa ≠ [] → '@' ∉ pa →
      sv ≠ [] → '\n' ∉ sv →
      ComposeServiceGithubSpec.fromStr
          (p ++ '/' :: (r ++ ':' :: (pa ++ '@' :: sv))) =
        .ok ⟨⟨p, r, "master".data, pa⟩, splitOnChar ',' sv⟩) := by
  constructor
  · intro p r b pa sv hp hpc hr hrp hrc hb hbc hpa hpac hsv hsvn
    have hc := githubSpecCaptures_decomp_branch p r b pa sv
      hp hpc hr hrp hrc hb hbc hpa hpac hsv hsvn
    have he := fromStr_eq_of_captures _ p r pa sv (some ('+' :: b)) hc
    rw [he]
    have hs : splitOnChar '+' ('+' :: b) = [] :: splitOnChar '+' b := by
      simp [splitOnChar]
    simp only [hs]
    rcases hl : splitOnChar '+' b with _ | ⟨g, gs⟩
    · exact absurd hl (splitOnChar_ne_nil _ _)
    · simp [List.getLast?_cons_cons]
  · intro p r pa sv hp hpc hr hrp hrc hpa hpac hsv hsvn
    have hc := githubSpecCaptures_decomp_nobranch p r pa sv
      hp hpc hr hrp hrc hpa hpac hsv hsvn
    have he := fromStr_eq_of_captures _ p r pa sv none hc
    simpa using he

/-- Witness for C4: the amended theorem applied at the concrete input
p/r+a+b:x@s, where the branch text a+b splits into pieces a and b and the
last piece b is returned. -/
theorem claim4_parse_exact_substrings_witness :
    ComposeServiceGithubSpec.fromStr "p/r+a+b:x@s".data =
      .ok ⟨⟨"p".data, "r".data,
        (splitOnChar '+' "a+b".data).getLastD [], "x".data⟩,
        splitOnChar ',' "s".data⟩ := by
  have h := claim4_parse_exact_substrings.1 "p".data "r".data "a+b".data
    "x".data "s".data (by decide) (by decide) (by decide) (by decide)
    (by decide) (by decide) (by decide) (by decide) (by decide) (by decide)
    (by decide)
  exact h

/-- Claim C8 (confirmed): when the branch segment is absent from the input,
parse succeeds with the branch set to the fixed fallback master; in
particular the concrete input of the claim yields branch master, project
Data4Democracy, repository docker-scaffolding, path docker-compose.yml and
services foo, bar. -/
theorem claim8_default_branch :
    (∀ (s : Str) (p r pa sv : Str),
      githubSpecCaptures s = some ⟨some p, some r, none, some pa, some sv⟩ →
      ComposeServiceGithubSpec.fromStr s =
        .ok ⟨⟨p, r, "master".data, pa⟩, splitOnChar ',' sv⟩) ∧
    ComposeServiceGithubSpec.fromStr
        "Data4Democracy/docker-scaffolding:docker-compose.yml@foo,bar".data =
      .ok ⟨⟨"Data4Democracy".data, "docker-scaffolding".data, "master".data,
        "docker-compose.yml".data⟩, ["foo".data, "bar".data]⟩ := by
  constructor
  · intro s p r pa sv h
    simpa using fromStr_eq_of_captures s p r pa sv none h
  · rfl

/-- Witness for C8: the universal part applied at the concrete input of the
claim, with the captures hypothesis discharged by evaluation. -/
theorem claim8_default_branch_witness :
    ComposeServiceGithubSpec.fromStr
        "Data4Democracy/docker-scaffolding:docker-compose.yml@foo,bar".data =
      .ok ⟨⟨"Data4Democracy".data, "docker-scaffolding".data, "master".data,
        "docker-compose.yml".data⟩,
        splitOnChar ',' "foo,bar".data⟩ := by
  exact claim8_default_branch.1 _ "Data4Democracy".data
    "docker-scaffolding".data "docker-compose.yml".data "foo,bar".data rfl

/-- Claim C6, counterexample: the input p/r:x@foo, has a trailing comma, so
its services segment contains an empty name and it does not match the
grammar of the spec; the claim says parse fails with the no-match error, but
parse succeeds, returning the service list foo, empty-string. -/
theorem claim6_counterexample :
    ComposeServiceGithubSpec.fromStr "p/r:x@foo,".data =
      .ok ⟨⟨"p".data, "r".data, "master".data, "x".data⟩,
        ["foo".data, []]⟩ := by
  exact rfl

/-- Claim C6 (amended): an input the regex does not match fails with the
no-match error; however the services segment is matched by the regex as any
non-empty newline-free text, so inputs with a trailing or doubled comma are
accepted, producing empty service names (shown here for a doubled comma). -/
theorem claim6_nomatch_error :
    (∀ s : Str, githubSpecCaptures s = none →
      ComposeServiceGithubSpec.fromStr s = .error (.unknownSpec noMatchMsg)) ∧
    ComposeServiceGithubSpec.fromStr "p/r:x@foo,,bar".data =
      .ok ⟨⟨"p".data, "r".data, "master".data, "x".data⟩,
        ["foo".data, [], "bar".data]⟩ := by
  constructor
  · intro s h
    simp [ComposeServiceGithubSpec.fromStr, h]
  · rfl

/-- Witness for C6: the universal part applied to a concrete input with no
colon or at-sign, which the regex does not match. -/
theorem claim6_nomatch_error_witness :
    ComposeServiceGithubSpec.fromStr "nodelimiters".data =
      .error (.unknownSpec noMatchMsg) := by
  exact claim6_nomatch_error.1 "nodelimiters".data rfl

/-- Claim C7, counterexample: the claim presupposes inputs on which a
required capture group is structurally present but empty; no such input
exists, because every required group of the regex demands one or more
characters, so the field-specific error branches of from_str are
unreachable. -/
theorem claim7_counterexample :
    ¬ ∃ (s : Str) (c : RegexCaptures), githubSpecCaptures s = some c ∧
      (c.project = some [] ∨ c.repository = some [] ∨
        c.path = some [] ∨ c.services = some []) := by
  rintro ⟨s, c, h, habs⟩
  obtain ⟨p, r, pa, sv, hcp, hcr, hcpa, hcsv, hp, hr, hpa, hsv, _⟩ :=
    githubSpecCaptures_some_inv s c h
  rcases habs with he | he | he | he
  · rw [hcp] at he
    exact hp (Option.some.inj he)
  · rw [hcr] at he
    exact hr (Option.some.inj he)
  · rw [hcpa] at he
    exact hpa (Option.some.inj he)
  · rw [hcsv] at he
    exact hsv (Option.some.inj he)

/-- Claim C7 (amended): parse never returns a field-specific missing-field
error: the regex requires one or more characters in every required capture
group, so the field-error branches of from_str (which in the code test
absence of the group, not emptiness) are dead, and the only error parse ever
returns is the no-match error. -/
theorem claim7_only_nomatch_error :
    ∀ (s : Str) (msg : Str),
      ComposeServiceGithubSpec.fromStr s = .error (.unknownSpec msg) →
      msg = noMatchMsg := by
  intro s msg h
  rcases hcap : githubSpecCaptures s with _ | c
  · simp only [ComposeServiceGithubSpec.fromStr, hcap] at h
    exact (YammerError.unknownSpec.inj (Except.error.inj h)).symm
  · obtain ⟨p, r, pa, sv, hcp, hcr, hcpa, hcsv, _, _, _, _, _⟩ :=
      githubSpecCaptures_some_inv s c hcap
    simp [ComposeServiceGithubSpec.fromStr, hcap, hcp, hcr, hcpa, hcsv] at h

/-- Witness for C7: the amended theorem applied to a concrete non-matching
input and its concrete error message. -/
theorem claim7_only_nomatch_error_witness :
    ComposeServiceGithubSpec.fromStr "nodelimiterseither".data =
      .error (.unknownSpec noMatchMsg) ∧ noMatchMsg = noMatchMsg := by
  exact ⟨rfl, claim7_only_nomatch_error "nodelimiterseither".data noMatchMsg rfl⟩

/-- Claim C10, counterexample: on input p/r+a+:x@s the branch text a+ ends
in a plus sign, splitting on the plus sign ends with an empty piece, and
parse succeeds with an EMPTY branch, so not every successful parse has all
four locator strings non-empty. -/
theorem claim10_counterexample :
    ComposeServiceGithubSpec.fromStr "p/r+a+:x@s".data =
      .ok ⟨⟨"p".data, "r".data, [], "x".data⟩, ["s".data]⟩ ∧
    (GithubFileSpec.mk "p".data "r".data [] "x".data).branch = [] := by
  exact ⟨rfl, rfl⟩

/-- Claim C10 (amended): every successful parse yields non-empty project,
repository and path strings and a services list with at least one element;
the branch may be empty (exactly when the branch segment text ends in a
plus sign), though it is non-empty whenever the segment is absent (the
master fallback) or free of further plus signs. -/
theorem claim10_parse_nonempty_fields :
    ∀ (s : Str) (res : ComposeServiceGithubSpec),
      ComposeServiceGithubSpec.fromStr s = .ok res →
      res.spec.project ≠ [] ∧ res.spec.repository ≠ [] ∧
        res.spec.filepath ≠ [] ∧ res.services ≠ [] := by
  intro s res h
  rcases hcap : githubSpecCaptures s with _ | c
  · simp [ComposeServiceGithubSpec.fromStr, hcap] at h
  · obtain ⟨p, r, pa, sv, hcp, hcr, hcpa, hcsv, hp, hr, hpa, hsv, _⟩ :=
      githubSpecCaptures_some_inv s c hcap
    simp only [ComposeServiceGithubSpec.fromStr, hcap, hcp, hcr, hcpa, hcsv] at h
    obtain rfl := (Except.ok.inj h).symm
    exact ⟨hp, hr, hpa, splitOnChar_ne_nil _ _⟩

/-- Witness for C10: the amended theorem applied at a concrete parsed
input. -/
theorem claim10_parse_nonempty_fields_witness :
    ("a".data : Str) ≠ [] ∧ ("b".data : Str) ≠ [] ∧
      ("c".data : Str) ≠ [] ∧ (["d".data] : List Str) ≠ [] := by
  exact claim10_parse_nonempty_fields "a/b:c@d".data
    ⟨⟨"a".data, "b".data, "master".data, "c".data⟩, ["d".data]⟩ rfl

/-- Claim C9 (confirmed): get_service returns none when the services mapping
is absent, when the name is not a key of it, or when the value at the key is
not itself a mapping, and returns the mapping otherwise; its return type is
an Option, so it never returns an error. -/
theorem claim9_get_service_cases :
    ∀ (f : DockerComposeFile) (name : Str),
      (f.services = none → f.getService name = none) ∧
      (∀ svs, f.services = some svs → svs.lookup (.s name) = none →
        f.getService name = none) ∧
      (∀ svs val, f.services = some svs → svs.lookup (.s name) = some val →
        val.asMapping = none → f.getService name = none) ∧
      (∀ svs m, f.services = some svs → svs.lookup (.s name) = some (.map m) →
        f.getService name = some m) := by
  intro f name
  refine ⟨fun h => by simp [DockerComposeFile.getService, h],
    fun svs h1 h2 => by simp [DockerComposeFile.getService, h1, h2],
    fun svs val h1 h2 h3 => by simp [DockerComposeFile.getService, h1, h2, h3],
    fun svs m h1 h2 => by
      simp [DockerComposeFile.getService, h1, h2, Yaml.asMapping]⟩

/-- Witness for C9: the absent-services case at a concrete document. -/
theorem claim9_get_service_cases_witness :
    DockerComposeFile.getService ⟨none, none⟩ "db".data = none :=
  (claim9_get_service_cases ⟨none, none⟩ "db".data).1 rfl

/-- Claim C5, counterexample: a single remote document whose version is the
empty string.  The loop tests only is_some, so the EMPTY string version is
selected, while the claim says an empty-string version is not selected. -/
theorem claim5_counterexample :
    (mergedAccum [⟨some ⟨some [], some .nil⟩, []⟩]).1 = some [] := by
  exact rfl

/-- Claim C5 (amended): the selected version is the first DEFINED
schema_version among the successfully processed remote documents in
specification order, where a defined empty string counts and is selected;
later documents never override an earlier defined version. -/
theorem claim5_version_first_defined :
    ∀ specs : List SpecOutcome,
      (mergedAccum specs).1 = specSelectedVersion specs :=
  mergedAccum_fst

/-- Claim C1, counterexample: no successfully processed remote document
supplies a version, but the pre-existing document at the output path does
(version 2, as the decode conjunct shows).  The claim says finalization then
succeeds with version 2; in the code `version.unwrap()` runs before the
output file is even read, so the run panics (modelled as none). -/
theorem claim1_counterexample :
    mainMerge [⟨some ⟨none, some .nil⟩, []⟩]
      (some (.cons (.s "version".data) (.s "2".data) .nil)) = none ∧
    decodeComposeFile (.cons (.s "version".data) (.s "2".data) .nil) =
      some ⟨some "2".data, none⟩ := by
  exact ⟨rfl, rfl⟩

/-- Claim C1 (amended): provided the pre-existing file (when present)
decodes, finalization fails (the version unwrap panic, modelled as none)
exactly when no successfully processed remote document supplied a version —
regardless of any version in the pre-existing document, which the code never
reads. -/
theorem claim1_no_version_failure :
    ∀ (specs : List SpecOutcome) (existing : Option YamlMap),
      (∀ raw, existing = some raw → (decodeComposeFile raw).isSome = true) →
      (mainMerge specs existing = none ↔
        ∀ o ∈ specs, ∀ f, o.download = some f → f.version = none) := by
  intro specs existing hdec
  rw [← specSelectedVersion_eq_none_iff]
  have hacc := mergedAccum_fst specs
  rcases hv : (mergedAccum specs).1 with _ | v
  · rw [hv] at hacc
    simp [mainMerge, hv, ← hacc]
  · rw [hv] at hacc
    rcases existing with _ | raw
    · simp [mainMerge, hv, ← hacc]
    · have hd := hdec raw rfl
      rcases hde : decodeComposeFile raw with _ | ex
      · rw [hde] at hd
        simp at hd
      · simp [mainMerge, hv, hde, ← hacc]

/-- Witness for C1: the amended theorem applied with no pre-existing file
and one successful download carrying no version: finalization fails. -/
theorem claim1_no_version_failure_witness :
    mainMerge [⟨some ⟨none, some .nil⟩, []⟩] none = none := by
  refine (claim1_no_version_failure [⟨some ⟨none, some .nil⟩, []⟩] none
    (fun raw h => by cases h)).mpr ?_
  intro o ho f hf
  rcases List.mem_singleton.mp ho with rfl
  cases Option.some.inj hf
  rfl

lemma mainMerge_some (specs : List SpecOutcome) (raw : YamlMap)
    (ex : DockerComposeFile) (v : Str)
    (hv : (mergedAccum specs).1 = some v)
    (hde : decodeComposeFile raw = some ex) :
    mainMerge specs (some raw) =
      some (((YamlMap.nil.insert (.s "services".data)
          (.map ((ex.services.getD .nil).rehash))).insert
        (.s "version".data) (.s v)).insert
        (.s "services".data) (.map (mergedAccum specs).2)) := by
  simp only [mainMerge, hv, hde]
  simp [YamlMap.extend, YamlMap.insert, YamlMap.erase]

/-- Claim C3, counterexample: the pre-existing file holds an unrelated
top-level key (volumes), shown present in it by the second conjunct; the
claim says the written output preserves it, but the output of the merge does
not contain it: deserialization keeps only version and services, and only
services is carried into the base map. -/
theorem claim3_counterexample :
    mainMerge [⟨some ⟨some "3".data, some .nil⟩, []⟩]
        (some (.cons (.s "volumes".data) (.s "v1".data)
          (.cons (.s "version".data) (.s "1".data) .nil))) =
      some (.cons (.s "services".data) (.map .nil)
        (.cons (.s "version".data) (.s "3".data) .nil)) ∧
    (YamlMap.cons (.s "volumes".data) (.s "v1".data)
        (.cons (.s "version".data) (.s "1".data) .nil)).lookup
      (.s "volumes".data) = some (.s "v1".data) ∧
    (YamlMap.cons (.s "services".data) (.map .nil)
        (.cons (.s "version".data) (.s "3".data) .nil)).lookup
      (.s "volumes".data) = none := by
  exact ⟨rfl, rfl, rfl⟩

/-- Claim C3 (amended): on success with a pre-existing file the written
output carries the remote-merged services mapping under services and the
selected remote version under version (both fully replaced), and NO other
top-level key at all: unrelated top-level content of the pre-existing file
is dropped, not preserved. -/
theorem claim3_output_toplevel :
    ∀ (specs : List SpecOutcome) (raw out : YamlMap),
      mainMerge specs (some raw) = some out →
      out.lookup (.s "services".data) = some (.map (mergedAccum specs).2) ∧
      (∃ v, (mergedAccum specs).1 = some v ∧
        out.lookup (.s "version".data) = some (.s v)) ∧
      (∀ k : Yaml, k ≠ .s "services".data → k ≠ .s "version".data →
        out.lookup k = none) := by
  intro specs raw out h
  rcases hv : (mergedAccum specs).1 with _ | v
  · simp [mainMerge, hv] at h
  · rcases hde : decodeComposeFile raw with _ | ex
    · simp [mainMerge, hv, hde] at h
    · rw [mainMerge_some specs raw ex v hv hde] at h
      obtain rfl := (Option.some.inj h).symm
      refine ⟨?_, ⟨v, by simp [hv], ?_⟩, ?_⟩
      · rw [YamlMap.lookup_insert, if_pos rfl]
      · rw [YamlMap.lookup_insert, if_neg (by decide),
          YamlMap.lookup_insert, if_pos rfl]
      · intro k hk1 hk2
        rw [YamlMap.lookup_insert, if_neg hk1, YamlMap.lookup_insert,
          if_neg hk2, YamlMap.lookup_insert, if_neg hk1]
        rfl

/-- Witness for C3: the amended theorem applied at a concrete run (one
remote document with version 3, a pre-existing file with only a version),
specialized to the unrelated key volumes. -/
theorem claim3_output_toplevel_witness :
    (YamlMap.cons (.s "services".data) (.map .nil)
        (.cons (.s "version".data) (.s "3".data) .nil)).lookup
      (.s "volumes".data) = none := by
  have h := claim3_output_toplevel [⟨some ⟨some "3".data, some .nil⟩, []⟩]
    (.cons (.s "version".data) (.s "1".data) .nil)
    (.cons (.s "services".data) (.map .nil)
      (.cons (.s "version".data) (.s "3".data) .nil)) rfl
  exact h.2.2 (.s "volumes".data) (by decide) (by decide)

/-- The specification input of the C2 run: one remote document with version 3
and a service named web, requesting web. -/
def c2Specs : List SpecOutcome :=
  [⟨some ⟨some "3".data, some (.cons (.s "web".data) (.map .nil) .nil)⟩,
    ["web".data]⟩]

/-- The pre-existing file of the C2 run: a services mapping holding db (with
content image: postgres) and a version 1. -/
def c2Existing : YamlMap :=
  .cons (.s "services".data)
    (.map (.cons (.s "db".data)
      (.map (.cons (.s "image".data) (.s "postgres".data) .nil)) .nil))
    (.cons (.s "version".data) (.s "1".data) .nil)

/-- Claim C2 (code bug): the pre-existing file contains service db and no
remote request touches db, so by the claim — and by the doc comment on the
output option of the CLI in src/src/main.rs, which promises that only new
services are added to an existing file — db must appear unchanged in the
merged output.  Instead, `all_contents.extend(merged_outer)` in main replaces
the whole services key with the remote-only mapping, so the output services
mapping holds web but not db: existing entries are dropped wholesale. -/
theorem claim2_existing_service_dropped :
    decodeComposeFile c2Existing =
      some ⟨some "1".data, some (.cons (.s "db".data)
        (.map (.cons (.s "image".data) (.s "postgres".data) .nil)) .nil)⟩ ∧
    mainMerge c2Specs (some c2Existing) =
      some (.cons (.s "services".data)
        (.map (.cons (.s "web".data) (.map .nil) .nil))
        (.cons (.s "version".data) (.s "3".data) .nil)) ∧
    (YamlMap.cons (.s "web".data) (.map .nil) .nil).lookup
      (.s "db".data) = none ∧
    (YamlMap.cons (.s "web".data) (.map .nil) .nil).lookup
      (.s "web".data) = some (.map .nil) := by
  exact ⟨rfl, rfl, rfl, rfl⟩
